import Mathlib

/-!
Verification of the arbitrage engine from apps/web/src/test/setup.ts
(class ArbitrageEngine, fee table MARKETPLACE_FEES, and the supporting
interfaces PriceSource / ArbitrageOpportunity / ArbitrageOptions).

Modelling decisions:
. JavaScript numbers are modelled as rationals (ℚ); the claims are about
  exact arithmetic identities, comparisons and ordering, none of which
  depend on binary floating point representation.
. The TypeScript type Marketplace is a union of string literals that is
  erased at runtime; calculateMarketplaceFee explicitly handles lookup
  failure (if (!feeStructure) return 0), so marketplaces are modelled as
  arbitrary strings and the fee table as an association list.
. Arrays are lists; the imperative for/push loops of
  findArbitrageOpportunities are translated to flatMap/filterMap, which
  produce the pushes in identical order (source-major, then target order
  within each source).
. Array.prototype.sort with comparator (a, b) => keyOf b - keyOf a is a
  stable sort placing a before b iff keyOf a > keyOf b, equivalently a
  stable sort by the boolean relation keyOf b ≤ keyOf a; it is modelled
  by List.mergeSort with that relation (stable sorts for a total
  preorder agree on their output).
-/

attribute [local semireducible] Rat.mul Rat.add Rat.sub Rat.inv Rat.ofScientific

/-- PriceSource from setup.ts: a marketplace listing. Optional fields keep
their optionality via Option. -/
structure PriceSource where
  marketplace : String
  price : ℚ
  listingId : String
  title : String
  url : String
  condition : Option String := none
  images : Option (List String) := none
deriving DecidableEq

/-- ArbitrageOpportunity from setup.ts: an opportunity between two listings. -/
structure ArbitrageOpportunity where
  sourceMarketplace : String
  targetMarketplace : String
  sourcePrice : ℚ
  targetPrice : ℚ
  grossProfit : ℚ
  fees : ℚ
  shippingCost : ℚ
  netProfit : ℚ
  profitMargin : ℚ
  roi : ℚ
  sourceListing : PriceSource
  targetListing : PriceSource
deriving DecidableEq

/-- The three values of the sortBy option literal union. -/
inductive SortBy where
  | profit
  | profitMargin
  | roi
deriving DecidableEq

/-- ArbitrageOptions from setup.ts; every field is optional. -/
structure ArbitrageOptions where
  minProfitMargin : Option ℚ := none
  shippingCost : Option ℚ := none
  sortBy : Option SortBy := none
  similarityThreshold : Option ℚ := none

/-- Fee structure entry of the MARKETPLACE_FEES record. -/
structure FeeStructure where
  percent : ℚ
  flat : ℚ
deriving DecidableEq

/-- MARKETPLACE_FEES from setup.ts, as an association list from marketplace
string to fee structure. -/
def MARKETPLACE_FEES : List (String × FeeStructure) :=
  [("EBAY", ⟨13, 0⟩),
   ("AMAZON", ⟨15, 0⟩),
   ("MERCARI", ⟨10, 0⟩),
   ("POSHMARK", ⟨20, 0⟩),
   ("FACEBOOK", ⟨0, 0⟩),
   ("CRAIGSLIST", ⟨0, 0⟩),
   ("OFFERUP", ⟨0, 0⟩)]

namespace ArbitrageEngine

/-- Runtime lookup MARKETPLACE_FEES[marketplace]: undefined for a string
outside the table. -/
def lookupFee (marketplace : String) : Option FeeStructure :=
  (MARKETPLACE_FEES.find? (fun e => e.1 == marketplace)).map (fun e => e.2)

/-- calculateMarketplaceFee from setup.ts:
returns (price * feeStructure.percent) / 100 + feeStructure.flat, and 0
when the marketplace is not in the table (if (!feeStructure) return 0). -/
def calculateMarketplaceFee (marketplace : String) (price : ℚ) : ℚ :=
  match lookupFee marketplace with
  | none => 0
  | some feeStructure => price * feeStructure.percent / 100 + feeStructure.flat

/-- A character kept by the regex replace: after toLowerCase, the regex
removes every character outside [a-z0-9 whitespace]; this predicate is true
on the [a-z0-9] part. -/
def isWordChar (c : Char) : Bool :=
  ('a' ≤ c && c ≤ 'z') || ('0' ≤ c && c ≤ '9')

/-- Split a character list into the maximal runs separated by whitespace,
as split(/\s+/) does. Empty fragments at the boundaries are dropped here;
the subsequent length > 2 filter of normalize drops them in the source too,
so the composed token computation agrees. -/
def splitOnWhitespace (cs : List Char) : List (List Char) :=
  cs.foldr
    (fun c acc =>
      if c.isWhitespace then
        match acc with
        | [] => []
        | t :: _ => if t.isEmpty then acc else [] :: acc
      else
        match acc with
        | [] => [[c]]
        | t :: ts => (c :: t) :: ts)
    []

/-- The local normalize of calculateTitleSimilarity: lowercase (applied per
character; a character whose lowercasing is outside the ASCII case map is
removed by the following regex filter either way), remove every character
outside [a-z0-9 whitespace], split on whitespace runs, keep words of
length > 2; the result is collected into a Set, modelled as a Finset. -/
def normalize (s : String) : Finset String :=
  (((splitOnWhitespace
      ((s.toList.map Char.toLower).filter (fun c => isWordChar c || c.isWhitespace))).map
    (fun w => String.mk w)).filter (fun w => 2 < w.length)).toFinset

/-- calculateTitleSimilarity from setup.ts: Jaccard index of the normalized
token sets, with result 0 when the union is empty. -/
def calculateTitleSimilarity (title1 title2 : String) : ℚ :=
  let words1 := normalize title1
  let words2 := normalize title2
  let intersection := words1 ∩ words2
  let union := words1 ∪ words2
  if union.card = 0 then 0
  else (intersection.card : ℚ) / (union.card : ℚ)

/-- Options argument of matchListings. -/
structure MatchOptions where
  threshold : Option ℚ := none

/-- matchListings from setup.ts: keep the targets whose title similarity to
the source is at least the threshold (default 0.5 via the nullish
coalescing operator). -/
def matchListings (source : PriceSource) (targets : List PriceSource)
    (options : MatchOptions) : List PriceSource :=
  let threshold := options.threshold.getD 0.5
  targets.filter (fun target =>
    decide (calculateTitleSimilarity source.title target.title ≥ threshold))

/-- Body of the inner target loop of findArbitrageOpportunities: none for
the two continue branches (non-positive gross profit, margin below the
minimum), some of the pushed opportunity record otherwise. -/
def processTarget (shippingCost minProfitMargin : ℚ)
    (source target : PriceSource) : Option ArbitrageOpportunity :=
  if target.price ≤ source.price then none
  else
    let grossProfit := target.price - source.price
    let fees := calculateMarketplaceFee target.marketplace target.price
    let netProfit := grossProfit - fees - shippingCost
    let profitMargin := netProfit / target.price * 100
    let roi := netProfit / source.price * 100
    if profitMargin < minProfitMargin then none
    else some
      { sourceMarketplace := source.marketplace
        targetMarketplace := target.marketplace
        sourcePrice := source.price
        targetPrice := target.price
        grossProfit := grossProfit
        fees := fees
        shippingCost := shippingCost
        netProfit := netProfit
        profitMargin := profitMargin
        roi := roi
        sourceListing := source
        targetListing := target }

/-- The opportunities array of findArbitrageOpportunities just before the
final sort, in discovery order: source-major over sources, then the order
of the matched targets (a subsequence of targets) within each source. -/
def emittedOpportunities (sources targets : List PriceSource)
    (options : ArbitrageOptions) : List ArbitrageOpportunity :=
  let minProfitMargin := options.minProfitMargin.getD 0
  let shippingCost := options.shippingCost.getD 0
  sources.flatMap (fun source =>
    (matchListings source targets
        ⟨some (options.similarityThreshold.getD 0.5)⟩).filterMap
      (processTarget shippingCost minProfitMargin source))

/-- The sort key selected by the switch of sortOpportunities. -/
def sortKey : SortBy → ArbitrageOpportunity → ℚ
  | SortBy.profit, o => o.netProfit
  | SortBy.profitMargin, o => o.profitMargin
  | SortBy.roi, o => o.roi

/-- The comparator (a, b) => keyOf b - keyOf a of sortOpportunities, as the
boolean relation it induces on a stable sort: a may stay before b exactly
when the comparator is nonpositive, i.e. keyOf b ≤ keyOf a. -/
def sortLe (sortBy : SortBy) (a b : ArbitrageOpportunity) : Bool :=
  decide (sortKey sortBy b ≤ sortKey sortBy a)

/-- sortOpportunities from setup.ts: a stable descending sort of a copy of
the array by the selected key (Array.prototype.sort is stable), modelled by
mergeSort with the comparator relation. -/
def sortOpportunities (opportunities : List ArbitrageOpportunity)
    (sortBy : SortBy) : List ArbitrageOpportunity :=
  opportunities.mergeSort (sortLe sortBy)

/-- findArbitrageOpportunities from setup.ts, with the option defaults
minProfitMargin 0, shippingCost 0, sortBy profitMargin, and similarity
threshold options.similarityThreshold ?? 0.5 forwarded to matchListings. -/
def findArbitrageOpportunities (sources targets : List PriceSource)
    (options : ArbitrageOptions) : List ArbitrageOpportunity :=
  let sortBy := options.sortBy.getD SortBy.profitMargin
  sortOpportunities (emittedOpportunities sources targets options) sortBy

/-- Division with an explicit witness of definedness: none exactly on a zero
denominator. Used to audit the two divisions of the target loop, whose
JavaScript originals silently produce Infinity or NaN on a zero divisor. -/
def checkedDiv (a b : ℚ) : Option ℚ :=
  if b = 0 then none else some (a / b)

/-- processTarget with its two divisions checked: outer none when a division
has a zero denominator, some none for the two continue branches, and
some (some record) for a pushed opportunity. Identical to processTarget
otherwise. -/
def processTargetChecked (shippingCost minProfitMargin : ℚ)
    (source target : PriceSource) : Option (Option ArbitrageOpportunity) :=
  if target.price ≤ source.price then some none
  else
    let grossProfit := target.price - source.price
    let fees := calculateMarketplaceFee target.marketplace target.price
    let netProfit := grossProfit - fees - shippingCost
    match checkedDiv netProfit target.price, checkedDiv netProfit source.price with
    | some mq, some rq =>
      let profitMargin := mq * 100
      let roi := rq * 100
      if profitMargin < minProfitMargin then some none
      else some (some
        { sourceMarketplace := source.marketplace
          targetMarketplace := target.marketplace
          sourcePrice := source.price
          targetPrice := target.price
          grossProfit := grossProfit
          fees := fees
          shippingCost := shippingCost
          netProfit := netProfit
          profitMargin := profitMargin
          roi := roi
          sourceListing := source
          targetListing := target })
    | _, _ => none

/-- Inner target loop of the checked pipeline: collects the pushed records,
propagating a division failure. -/
def collectChecked {α β : Type} (f : α → Option (Option β)) :
    List α → Option (List β)
  | [] => some []
  | a :: as =>
    match f a with
    | none => none
    | some none => collectChecked f as
    | some (some b) => (collectChecked f as).map (fun bs => b :: bs)

/-- Outer source loop of the checked pipeline: concatenates the per-source
results, propagating a division failure. -/
def concatChecked {α β : Type} (f : α → Option (List β)) :
    List α → Option (List β)
  | [] => some []
  | a :: as =>
    match f a with
    | none => none
    | some bs => (concatChecked f as).map (fun rest => bs ++ rest)

/-- The opportunities array of the checked pipeline before the final sort. -/
def emittedOpportunitiesChecked (sources targets : List PriceSource)
    (options : ArbitrageOptions) : Option (List ArbitrageOpportunity) :=
  concatChecked
    (fun source =>
      collectChecked
        (processTargetChecked (options.shippingCost.getD 0)
          (options.minProfitMargin.getD 0) source)
        (matchListings source targets
          ⟨some (options.similarityThreshold.getD 0.5)⟩))
    sources

/-- findArbitrageOpportunities with every division checked: none exactly
when some emitted opportunity divides by zero. -/
def findArbitrageOpportunitiesChecked (sources targets : List PriceSource)
    (options : ArbitrageOptions) : Option (List ArbitrageOpportunity) :=
  (emittedOpportunitiesChecked sources targets options).map
    (fun opportunities =>
      sortOpportunities opportunities (options.sortBy.getD SortBy.profitMargin))

/-- Explicit state for the frame property: the caller-owned input
collections the engine reads from. -/
structure EngineState where
  sources : List PriceSource
  targets : List PriceSource
deriving DecidableEq

/-- findArbitrageOpportunities as a state transformer over the caller-owned
collections: every array access of the source text is a read of st, and no
statement of the source writes to sources or targets (the only writes are
pushes to the local opportunities array and the sort of its copy), so the
translation returns the state unchanged. -/
def findArbitrageOpportunitiesS (st : EngineState) (options : ArbitrageOptions) :
    List ArbitrageOpportunity × EngineState :=
  let minProfitMargin := options.minProfitMargin.getD 0
  let shippingCost := options.shippingCost.getD 0
  let sortBy := options.sortBy.getD SortBy.profitMargin
  let opportunities := st.sources.flatMap (fun source =>
    (matchListings source st.targets
        ⟨some (options.similarityThreshold.getD 0.5)⟩).filterMap
      (processTarget shippingCost minProfitMargin source))
  (sortOpportunities opportunities sortBy, st)

/-- Concrete fixture: a profitable source listing. -/
def wSource : PriceSource :=
  { marketplace := "EBAY", price := 50, listingId := "s1",
    title := "red widget", url := "u1" }

/-- Concrete fixture: a matching resale target listing. -/
def wTarget : PriceSource :=
  { marketplace := "CRAIGSLIST", price := 100, listingId := "t1",
    title := "red widget", url := "u2" }

/-- The single opportunity the engine emits for wSource and wTarget under
default options: gross profit 50, zero Craigslist fee, margin 50, roi 100. -/
def wOpp : ArbitrageOpportunity :=
  { sourceMarketplace := "EBAY", targetMarketplace := "CRAIGSLIST",
    sourcePrice := 50, targetPrice := 100, grossProfit := 50, fees := 0,
    shippingCost := 0, netProfit := 50, profitMargin := 50, roi := 100,
    sourceListing := wSource, targetListing := wTarget }

/-- Concrete fixture: a zero-priced source listing matching wTarget. -/
def zSource : PriceSource :=
  { marketplace := "EBAY", price := 0, listingId := "z1",
    title := "red widget", url := "u3" }

/-- Concrete fixture: a listing whose title normalizes to no tokens. -/
def eSource : PriceSource :=
  { marketplace := "EBAY", price := 1, listingId := "es",
    title := "a -", url := "u4" }

/-- Concrete fixture: another listing whose title normalizes to no tokens. -/
def eTarget : PriceSource :=
  { marketplace := "EBAY", price := 2, listingId := "et",
    title := "", url := "u5" }

/-- Concrete fixture: the engine state holding wSource and wTarget. -/
def wState : EngineState :=
  { sources := [wSource], targets := [wTarget] }

end ArbitrageEngine

namespace ArbitrageEngine

theorem processTarget_spec {shippingCost minProfitMargin : ℚ}
    {source target : PriceSource} {o : ArbitrageOpportunity}
    (h : processTarget shippingCost minProfitMargin source target = some o) :
    source.price < target.price ∧
    minProfitMargin ≤ o.profitMargin ∧
    o.sourceMarketplace = source.marketplace ∧
    o.targetMarketplace = target.marketplace ∧
    o.sourcePrice = source.price ∧
    o.targetPrice = target.price ∧
    o.grossProfit = target.price - source.price ∧
    o.fees = calculateMarketplaceFee target.marketplace target.price ∧
    o.shippingCost = shippingCost ∧
    o.netProfit = o.grossProfit - o.fees - o.shippingCost ∧
    o.profitMargin = o.netProfit / o.targetPrice * 100 ∧
    o.roi = o.netProfit / o.sourcePrice * 100 ∧
    o.sourceListing = source ∧
    o.targetListing = target := by
  simp only [processTarget] at h
  split at h
  · exact absurd h (by simp)
  · split at h
    · exact absurd h (by simp)
    · rename_i h1 h2
      obtain rfl := (Option.some.injEq _ _ ▸ h)
      exact ⟨not_le.mp h1, not_lt.mp h2, rfl, rfl, rfl, rfl, rfl, rfl, rfl, rfl, rfl, rfl, rfl, rfl⟩

theorem mem_emittedOpportunities {o : ArbitrageOpportunity}
    {sources targets : List PriceSource} {options : ArbitrageOptions} :
    o ∈ emittedOpportunities sources targets options ↔
      ∃ source ∈ sources,
        ∃ target ∈ matchListings source targets
            ⟨some (options.similarityThreshold.getD 0.5)⟩,
          processTarget (options.shippingCost.getD 0)
            (options.minProfitMargin.getD 0) source target = some o := by
  simp [emittedOpportunities, List.mem_flatMap, List.mem_filterMap]

theorem find_perm_emitted (sources targets : List PriceSource)
    (options : ArbitrageOptions) :
    (findArbitrageOpportunities sources targets options).Perm
      (emittedOpportunities sources targets options) :=
  List.mergeSort_perm _ _

theorem mem_find_iff {o : ArbitrageOpportunity}
    {sources targets : List PriceSource} {options : ArbitrageOptions} :
    o ∈ findArbitrageOpportunities sources targets options ↔
      o ∈ emittedOpportunities sources targets options :=
  (find_perm_emitted sources targets options).mem_iff

theorem mem_matchListings {source target : PriceSource}
    {targets : List PriceSource} {options : MatchOptions} :
    target ∈ matchListings source targets options ↔
      target ∈ targets ∧
        calculateTitleSimilarity source.title target.title ≥
          options.threshold.getD 0.5 := by
  simp [matchListings, List.mem_filter]

end ArbitrageEngine

namespace ArbitrageEngine

theorem sortLe_trans (sortBy : SortBy) :
    ∀ a b c, sortLe sortBy a b = true → sortLe sortBy b c = true →
      sortLe sortBy a c = true := by
  intro a b c hab hbc
  simp only [sortLe, decide_eq_true_eq] at *
  exact le_trans hbc hab

theorem sortLe_total (sortBy : SortBy) :
    ∀ a b, (sortLe sortBy a b || sortLe sortBy b a) = true := by
  intro a b
  simp only [sortLe, Bool.or_eq_true, decide_eq_true_eq]
  exact le_total _ _

theorem calculateTitleSimilarity_nonneg (title1 title2 : String) :
    0 ≤ calculateTitleSimilarity title1 title2 := by
  simp only [calculateTitleSimilarity]
  split
  · exact le_refl 0
  · exact div_nonneg (Nat.cast_nonneg _) (Nat.cast_nonneg _)

theorem find_sorted (sources targets : List PriceSource)
    (options : ArbitrageOptions) :
    (findArbitrageOpportunities sources targets options).Pairwise
      (fun a b => sortKey (options.sortBy.getD SortBy.profitMargin) b ≤
        sortKey (options.sortBy.getD SortBy.profitMargin) a) := by
  have h := List.sorted_mergeSort
    (sortLe_trans (options.sortBy.getD SortBy.profitMargin))
    (sortLe_total (options.sortBy.getD SortBy.profitMargin))
    (emittedOpportunities sources targets options)
  exact h.imp (fun hab => by simpa [sortLe] using hab)

theorem find_stable (sources targets : List PriceSource)
    (options : ArbitrageOptions) (k : ℚ) :
    (findArbitrageOpportunities sources targets options).filter
        (fun o => decide (sortKey (options.sortBy.getD SortBy.profitMargin) o = k)) =
      (emittedOpportunities sources targets options).filter
        (fun o => decide (sortKey (options.sortBy.getD SortBy.profitMargin) o = k)) := by
  set sb := options.sortBy.getD SortBy.profitMargin with hsb
  set p : ArbitrageOpportunity → Bool := fun o => decide (sortKey sb o = k) with hp
  have hpair : ((emittedOpportunities sources targets options).filter p).Pairwise
      (fun a b => sortLe sb a b = true) := by
    apply List.pairwise_of_forall_mem_list
    intro a ha b hb
    have hak : sortKey sb a = k := by
      have := (List.mem_filter.mp ha).2
      simpa [hp] using this
    have hbk : sortKey sb b = k := by
      have := (List.mem_filter.mp hb).2
      simpa [hp] using this
    simp [sortLe, hak, hbk]
  have hsub : ((emittedOpportunities sources targets options).filter p).Sublist
      (findArbitrageOpportunities sources targets options) :=
    List.sublist_mergeSort (sortLe_trans sb) (sortLe_total sb) hpair
      (List.filter_sublist _)
  have hsub2 : ((emittedOpportunities sources targets options).filter p).Sublist
      ((findArbitrageOpportunities sources targets options).filter p) := by
    have := hsub.filter p
    rwa [List.filter_filter, show (fun a => p a && p a) = p from funext (fun a => Bool.and_self _)] at this
  have hlen : ((emittedOpportunities sources targets options).filter p).length =
      ((findArbitrageOpportunities sources targets options).filter p).length :=
    ((find_perm_emitted sources targets options).filter p).length_eq.symm
  exact (hsub2.eq_of_length hlen).symm

end ArbitrageEngine

namespace ArbitrageEngine

theorem processTargetChecked_eq {shippingCost minProfitMargin : ℚ}
    {source target : PriceSource} (hs : 0 < source.price) :
    processTargetChecked shippingCost minProfitMargin source target =
      some (processTarget shippingCost minProfitMargin source target) := by
  simp only [processTargetChecked, processTarget, checkedDiv]
  by_cases h1 : target.price ≤ source.price
  · simp [h1]
  · have htp : (0 : ℚ) < target.price := lt_trans hs (not_le.mp h1)
    simp only [h1, if_false, htp.ne', hs.ne', ite_false]
    split <;> rfl

theorem collectChecked_eq_filterMap {α β : Type} {f : α → Option (Option β)}
    {g : α → Option β} (l : List α) (h : ∀ a ∈ l, f a = some (g a)) :
    collectChecked f l = some (l.filterMap g) := by
  induction l with
  | nil => rfl
  | cons a as ih =>
    rw [collectChecked, h a (List.mem_cons_self a as)]
    cases hg : g a with
    | none => simp [List.filterMap_cons, hg,
        ih (fun x hx => h x (List.mem_cons_of_mem a hx))]
    | some b => simp [List.filterMap_cons, hg,
        ih (fun x hx => h x (List.mem_cons_of_mem a hx))]

theorem concatChecked_eq_flatMap {α β : Type} {f : α → Option (List β)}
    {g : α → List β} (l : List α) (h : ∀ a ∈ l, f a = some (g a)) :
    concatChecked f l = some (l.flatMap g) := by
  induction l with
  | nil => rfl
  | cons a as ih =>
    rw [concatChecked, h a (List.mem_cons_self a as)]
    simp [ih (fun x hx => h x (List.mem_cons_of_mem a hx))]

theorem emittedOpportunitiesChecked_eq (sources targets : List PriceSource)
    (options : ArbitrageOptions) (hs : ∀ s ∈ sources, 0 < s.price) :
    emittedOpportunitiesChecked sources targets options =
      some (emittedOpportunities sources targets options) := by
  rw [emittedOpportunitiesChecked,
    concatChecked_eq_flatMap sources (g := fun source =>
      (matchListings source targets
          ⟨some (options.similarityThreshold.getD 0.5)⟩).filterMap
        (processTarget (options.shippingCost.getD 0)
          (options.minProfitMargin.getD 0) source))]
  · simp [emittedOpportunities]
  · intro source hsource
    exact collectChecked_eq_filterMap _
      (fun target _ => processTargetChecked_eq (hs source hsource))

theorem wOpp_mem : wOpp ∈ findArbitrageOpportunities [wSource] [wTarget] {} := by
  have h : emittedOpportunities [wSource] [wTarget] {} = [wOpp] := by decide
  simp [findArbitrageOpportunities, sortOpportunities, h]

end ArbitrageEngine

namespace ArbitrageEngine

/-- C1: for every marketplace in the fee table and every price, the fee is
price * percentRate / 100 + flatFee, with flat fee 0 and the listed rates. -/
theorem fee_table_values (price : ℚ) :
    calculateMarketplaceFee "EBAY" price = price * 13 / 100 + 0 ∧
    calculateMarketplaceFee "AMAZON" price = price * 15 / 100 + 0 ∧
    calculateMarketplaceFee "MERCARI" price = price * 10 / 100 + 0 ∧
    calculateMarketplaceFee "POSHMARK" price = price * 20 / 100 + 0 ∧
    calculateMarketplaceFee "FACEBOOK" price = price * 0 / 100 + 0 ∧
    calculateMarketplaceFee "CRAIGSLIST" price = price * 0 / 100 + 0 ∧
    calculateMarketplaceFee "OFFERUP" price = price * 0 / 100 + 0 :=
  ⟨rfl, rfl, rfl, rfl, rfl, rfl, rfl⟩

/-- C2: every returned opportunity satisfies the exact profit identities. -/
theorem netProfit_decomposition (sources targets : List PriceSource)
    (options : ArbitrageOptions) (o : ArbitrageOpportunity)
    (h : o ∈ findArbitrageOpportunities sources targets options) :
    o.netProfit = o.grossProfit - o.fees - o.shippingCost ∧
    o.grossProfit = o.targetPrice - o.sourcePrice ∧
    o.fees = calculateMarketplaceFee o.targetMarketplace o.targetPrice ∧
    o.shippingCost = options.shippingCost.getD 0 := by
  obtain ⟨source, hsource, target, htarget, hpt⟩ :=
    mem_emittedOpportunities.mp (mem_find_iff.mp h)
  obtain ⟨_, _, _, hmk, hsp, htp, hgp, hfee, hsc, hnp, _, _, _, _⟩ :=
    processTarget_spec hpt
  refine ⟨hnp, ?_, ?_, hsc⟩
  · rw [hgp, hsp, htp]
  · rw [hfee, hmk, htp]

theorem c2_w : wOpp.netProfit = wOpp.grossProfit - wOpp.fees - wOpp.shippingCost ∧
    wOpp.grossProfit = wOpp.targetPrice - wOpp.sourcePrice ∧
    wOpp.fees = calculateMarketplaceFee wOpp.targetMarketplace wOpp.targetPrice ∧
    wOpp.shippingCost = (ArbitrageOptions.mk none none none none).shippingCost.getD 0 :=
  netProfit_decomposition [wSource] [wTarget] {} wOpp wOpp_mem

/-- C3: every returned opportunity has strict gross profit, and a pair with
target price at most source price is skipped (processTarget yields none). -/
theorem targetPrice_strictly_greater (sources targets : List PriceSource)
    (options : ArbitrageOptions) :
    (∀ o ∈ findArbitrageOpportunities sources targets options,
      o.sourcePrice < o.targetPrice) ∧
    ∀ source target : PriceSource, target.price ≤ source.price →
      processTarget (options.shippingCost.getD 0)
        (options.minProfitMargin.getD 0) source target = none := by
  constructor
  · intro o h
    obtain ⟨source, hsource, target, htarget, hpt⟩ :=
      mem_emittedOpportunities.mp (mem_find_iff.mp h)
    obtain ⟨hlt, _, _, _, hsp, htp, _⟩ := processTarget_spec hpt
    rw [hsp, htp]
    exact hlt
  · intro source target hle
    simp [processTarget, hle]

theorem c3_w : wOpp.sourcePrice < wOpp.targetPrice ∧
    processTarget 0 0 wTarget wSource = none :=
  ⟨(targetPrice_strictly_greater [wSource] [wTarget] {}).1 wOpp wOpp_mem,
   (targetPrice_strictly_greater [wSource] [wTarget] {}).2 wTarget wSource (by decide)⟩

/-- C4: every returned opportunity meets the minimum profit margin, and the
margin is netProfit / targetPrice * 100. -/
theorem profitMargin_at_least_minimum (sources targets : List PriceSource)
    (options : ArbitrageOptions) (o : ArbitrageOpportunity)
    (h : o ∈ findArbitrageOpportunities sources targets options) :
    options.minProfitMargin.getD 0 ≤ o.profitMargin ∧
    o.profitMargin = o.netProfit / o.targetPrice * 100 := by
  obtain ⟨source, hsource, target, htarget, hpt⟩ :=
    mem_emittedOpportunities.mp (mem_find_iff.mp h)
  obtain ⟨_, hmin, _, _, _, _, _, _, _, _, hpm, _⟩ := processTarget_spec hpt
  exact ⟨hmin, hpm⟩

theorem c4_w : ((ArbitrageOptions.mk none none none none).minProfitMargin.getD 0
      ≤ wOpp.profitMargin) ∧
    wOpp.profitMargin = wOpp.netProfit / wOpp.targetPrice * 100 :=
  profitMargin_at_least_minimum [wSource] [wTarget] {} wOpp wOpp_mem

end ArbitrageEngine

namespace ArbitrageEngine

/-- C5 counterexample: both titles normalize to the empty token set, the
similarity is 0, yet at threshold 0 the target IS matched, because the
filter keeps a target when similarity >= threshold and 0 >= 0 holds. -/
theorem threshold_zero_empty_pair_cex :
    normalize eSource.title = ∅ ∧
    normalize eTarget.title = ∅ ∧
    calculateTitleSimilarity eSource.title eTarget.title = 0 ∧
    matchListings eSource [eTarget] ⟨some 0⟩ = [eTarget] := by decide

/-- C5 amended: at threshold 0 every target is matched, the empty-token
pair included, since every similarity score is at least 0. -/
theorem threshold_zero_matches_all (source : PriceSource)
    (targets : List PriceSource) :
    matchListings source targets ⟨some 0⟩ = targets := by
  simp only [matchListings, Option.getD_some]
  rw [List.filter_eq_self]
  intro target _
  simpa using calculateTitleSimilarity_nonneg source.title target.title

/-- C6: raising the threshold never adds a match: the matches at a higher
threshold are a subset of the matches at a lower one. -/
theorem raising_threshold_shrinks_matches (t1 t2 : ℚ) (h : t1 ≤ t2)
    (source : PriceSource) (targets : List PriceSource) :
    matchListings source targets ⟨some t2⟩ ⊆
      matchListings source targets ⟨some t1⟩ := by
  intro target ht
  obtain ⟨hmem, hsim⟩ := mem_matchListings.mp ht
  exact mem_matchListings.mpr ⟨hmem, le_trans (by simpa using h) hsim⟩

theorem c6_w : (3/10 : ℚ) ≤ 9/10 ∧
    matchListings wSource [wTarget] ⟨some (9/10)⟩ ⊆
      matchListings wSource [wTarget] ⟨some (3/10)⟩ :=
  ⟨by norm_num,
   raising_threshold_shrinks_matches (3/10) (9/10) (by norm_num) wSource [wTarget]⟩

/-- C7: the returned list is sorted descending by the selected key, and for
every key value the returned opportunities having it appear exactly in
discovery order (the order of emittedOpportunities: source-major, then
matched-target order within each source). -/
theorem output_sorted_descending_stable (sources targets : List PriceSource)
    (options : ArbitrageOptions) :
    (findArbitrageOpportunities sources targets options).Pairwise
      (fun a b => sortKey (options.sortBy.getD SortBy.profitMargin) b ≤
        sortKey (options.sortBy.getD SortBy.profitMargin) a) ∧
    ∀ k : ℚ,
      (findArbitrageOpportunities sources targets options).filter
          (fun o => decide (sortKey (options.sortBy.getD SortBy.profitMargin) o = k)) =
        (emittedOpportunities sources targets options).filter
          (fun o => decide (sortKey (options.sortBy.getD SortBy.profitMargin) o = k)) :=
  ⟨find_sorted sources targets options, find_stable sources targets options⟩

end ArbitrageEngine

namespace ArbitrageEngine

/-- C8 counterexample: an input whose prices are all nonnegative (the source
price is 0) on which the checked pipeline reports a division by zero: the
roi of the emitted opportunity divides netProfit by the zero source price
(the JavaScript original completes, producing Infinity, not an exception). -/
theorem zero_price_source_roi_division_cex :
    0 ≤ zSource.price ∧ 0 ≤ wTarget.price ∧
    findArbitrageOpportunitiesChecked [zSource] [wTarget] {} = none := by decide

/-- C8 amended: when every source price is strictly positive (target prices
arbitrary), every division of the run is well-defined: the checked pipeline
succeeds and returns exactly the unchecked result; moreover an unrecognized
marketplace resolves to a zero fee rather than a failure. -/
theorem checked_run_total_on_positive_sources (sources targets : List PriceSource)
    (options : ArbitrageOptions) (hs : ∀ s ∈ sources, 0 < s.price) :
    findArbitrageOpportunitiesChecked sources targets options =
      some (findArbitrageOpportunities sources targets options) ∧
    ∀ (marketplace : String) (price : ℚ), lookupFee marketplace = none →
      calculateMarketplaceFee marketplace price = 0 := by
  constructor
  · rw [findArbitrageOpportunitiesChecked,
      emittedOpportunitiesChecked_eq sources targets options hs]
    rfl
  · intro marketplace price hnone
    simp [calculateMarketplaceFee, hnone]

theorem c8_w : 0 < wSource.price ∧
    findArbitrageOpportunitiesChecked [wSource] [wTarget] {} =
      some (findArbitrageOpportunities [wSource] [wTarget] {}) ∧
    calculateMarketplaceFee "BONANZA" 100 = 0 :=
  ⟨by decide,
   (checked_run_total_on_positive_sources [wSource] [wTarget] {} (by decide)).1,
   (checked_run_total_on_positive_sources [wSource] [wTarget] {} (by decide)).2
     "BONANZA" 100 (by decide)⟩

/-- C9: the engine as a state transformer returns the caller-owned
collections unchanged, its result list is exactly the pure function of the
inputs, and the listings referenced by every returned opportunity are
elements of the input collections. -/
theorem engine_preserves_state (st : EngineState) (options : ArbitrageOptions) :
    (findArbitrageOpportunitiesS st options).2 = st ∧
    (findArbitrageOpportunitiesS st options).1 =
      findArbitrageOpportunities st.sources st.targets options ∧
    ∀ o ∈ (findArbitrageOpportunitiesS st options).1,
      o.sourceListing ∈ st.sources ∧ o.targetListing ∈ st.targets := by
  refine ⟨rfl, rfl, ?_⟩
  intro o h
  have h' : o ∈ findArbitrageOpportunities st.sources st.targets options := h
  obtain ⟨source, hsource, target, htarget, hpt⟩ :=
    mem_emittedOpportunities.mp (mem_find_iff.mp h')
  obtain ⟨_, _, _, _, _, _, _, _, _, _, _, _, hsl, htl⟩ := processTarget_spec hpt
  exact ⟨hsl ▸ hsource, htl ▸ (mem_matchListings.mp htarget).1⟩

theorem c9_w : (findArbitrageOpportunitiesS wState {}).2 = wState ∧
    (wOpp.sourceListing ∈ wState.sources ∧ wOpp.targetListing ∈ wState.targets) :=
  ⟨(engine_preserves_state wState {}).1,
   (engine_preserves_state wState {}).2.2 wOpp wOpp_mem⟩

/-- C10: title similarity is symmetric, so matching at any threshold depends
only on the unordered pair of titles. -/
theorem title_similarity_symmetric (title1 title2 : String) :
    calculateTitleSimilarity title1 title2 = calculateTitleSimilarity title2 title1 ∧
    ∀ threshold : ℚ,
      (calculateTitleSimilarity title1 title2 ≥ threshold ↔
        calculateTitleSimilarity title2 title1 ≥ threshold) := by
  have h : calculateTitleSimilarity title1 title2 =
      calculateTitleSimilarity title2 title1 := by
    simp only [calculateTitleSimilarity]
    rw [Finset.inter_comm, Finset.union_comm]
  exact ⟨h, fun threshold => by rw [h]⟩

end ArbitrageEngine
